import Mathlib

/-!
Verification development for the dynamic-memory chat summarization
extension (src/index.js).  The pipeline intercepts a chat message
sequence, preserves a leading run of system messages, splits the rest
into a summarizable history and a verbatim present window, paginates the
history into fixed-size character pages, summarizes each page through a
remote call, and splices the digests back as one synthetic system
message.

The embedding below translates the JavaScript source function by
function.  Remote calls are modelled by an environment `env : Nat →
TransportOutcome` giving the transport outcome of the i-th page request;
everything else is a pure translation of the source.  JavaScript string
lengths (UTF-16 units) are modelled as character counts, the standard
shallow embedding of string length.
-/

/-- Model of one chat message (the fields of the SillyTavern message objects
read and written by src/index.js: `name`, `mes`, `is_user`, `is_system`,
`send_date`). -/
structure Message where
  name : String
  mes : String
  is_user : Bool
  is_system : Bool
  send_date : Nat
deriving DecidableEq, Repr

/-- Model of the extension settings object (defaultSettings shape,
src/index.js lines 8-15). -/
structure Settings where
  enabled : Bool
  pageSize : Nat
  presentSituationSize : Nat
  apiUrl : String
  apiKey : String
  summarizeModel : String
deriving DecidableEq, Repr

/-- Renders a message as the `"speaker: text\n"` line used both by the
present-window scan (line 65) and by pagination (line 119). -/
def renderMsg (m : Message) : String :=
  m.name ++ ": " ++ m.mes ++ "\n"

/-- Total rendered character count of a list of messages. -/
def sumRender : List Message → Nat
  | [] => 0
  | m :: rest => (renderMsg m).length + sumRender rest

/-- A message belongs to the preserved leading preamble when it is not from
the user and is system-flagged or named "System": the negation of the loop
condition `chat[i].is_user || (!chat[i].is_system && chat[i].name !==
'System')` at line 46. -/
def isPreambleMsg (m : Message) : Bool :=
  !(m.is_user || (!m.is_system && m.name != "System"))

/-- The preserved leading run of system messages, `chat.slice(0,
chatStartIndex)` (line 55). -/
def preambleOf (chat : List Message) : List Message :=
  chat.takeWhile isPreambleMsg

/-- The messages after the preamble, `chat.slice(chatStartIndex)` (line 56).
When this is empty the source returns inside the scan loop (line 52). -/
def workableOf (chat : List Message) : List Message :=
  chat.dropWhile isPreambleMsg

/-- Backward present-window scan (lines 60-72), expressed on the reversed
workable list: starting from the accumulated count `count`, keep taking
messages while `count + renderMsg.length` does not exceed `limit`; stop at
the first message whose inclusion would exceed it (`if
(presentSituationCharCount + messageText.length > settings.presentSituationSize)
break`). -/
def presentRev (limit : Nat) : Nat → List Message → List Message
  | _, [] => []
  | count, m :: rest =>
    if limit < count + (renderMsg m).length then []
    else m :: presentRev limit (count + (renderMsg m).length) rest

/-- The source's `splitIndex`: it starts at `workableChat.length` and is
lowered to `i` each time message `i` is taken into the present window, so it
equals the length minus the number of messages the backward scan took. -/
def splitIndex (limit : Nat) (ws : List Message) : Nat :=
  ws.length - (presentRev limit 0 ws.reverse).length

/-- The history partition, `workableChat.slice(0, splitIndex)` (line 74). -/
def historyOf (limit : Nat) (chat : List Message) : List Message :=
  (workableOf chat).take (splitIndex limit (workableOf chat))

/-- The present partition, `workableChat.slice(splitIndex)` (line 75). -/
def presentOf (limit : Nat) (chat : List Message) : List Message :=
  (workableOf chat).drop (splitIndex limit (workableOf chat))

/-- The present-situation text: the present messages each rendered as
`name + ': ' + mes` and joined with newlines (line 84). -/
def presentTextOf (limit : Nat) (chat : List Message) : String :=
  String.intercalate "\n" ((presentOf limit chat).map fun m => m.name ++ ": " ++ m.mes)

/-- The rendered text blob built by the paginator, `fullText += name + ': ' +
mes + '\n'` over the message list (lines 117-120). -/
def renderChat (chat : List Message) : String :=
  chat.foldl (fun acc m => acc ++ renderMsg m) ""

/-- Number of pages the pagination loop (lines 126-131) pushes: one page per
`startIndex = i * pageSize` with `startIndex < len`, i.e. the ceiling of
`len / pageSize`.  For `pageSize = 0` the JavaScript loop would never
advance; the claims and the spec restrict `pageSize` to be positive, where
this count is exact. -/
def pageCount (pageSize len : Nat) : Nat :=
  (len + pageSize - 1) / pageSize

/-- The paginator (lines 116-134): render the messages into one blob, return
no pages when it is empty, otherwise page i is
`fullText.substring(i * pageSize, i * pageSize + pageSize)`, modelled as
drop-then-take on the character list. -/
def paginate (chat : List Message) (pageSize : Nat) : List String :=
  if (renderChat chat).length = 0 then []
  else
    (List.range (pageCount pageSize (renderChat chat).length)).map
      fun i => String.mk (((renderChat chat).data.drop (i * pageSize)).take pageSize)

/-- Transport outcome of one remote summarization request, covering the
branches of summarizePage (lines 148-182): the fetch throws, it resolves
with a non-ok status, it resolves ok but the JSON body has no choices, or it
resolves ok with a first-choice message content. -/
inductive TransportOutcome where
  | exception
  | httpError (status : Nat) (body : String)
  | invalidBody (raw : String)
  | success (content : String)
deriving DecidableEq, Repr

/-- Observable result of one summarizePage invocation: the returned digest
(`null` modelled as `none`), whether a network request was issued, and
whether a user-visible plus log-visible error was surfaced (the
toastr.error / console.error pairs). -/
structure SummarizeResult where
  digest : Option String
  networkCall : Bool
  errorSurfaced : Bool
deriving DecidableEq, Repr

/-- Model of JavaScript `String.prototype.trim`: strip leading and trailing
whitespace characters (executable form of `String.trim`, which the source
applies to the remote content at line 177). -/
def strTrim (s : String) : String :=
  String.mk (((s.data.dropWhile Char.isWhitespace).reverse.dropWhile Char.isWhitespace).reverse)

/-- The page summarizer (lines 137-183).  An empty credential returns null
before any fetch (lines 140-144); every transport failure, non-ok status or
structurally invalid body is swallowed into null with an error surfaced; on
success the first choice content is returned whitespace-trimmed (line 177). -/
def summarizePage (page presentSituation : String) (s : Settings)
    (o : TransportOutcome) : SummarizeResult :=
  if s.apiKey = "" then
    { digest := none, networkCall := false, errorSurfaced := true }
  else
    match o with
    | .exception => { digest := none, networkCall := true, errorSurfaced := true }
    | .httpError _ _ => { digest := none, networkCall := true, errorSurfaced := true }
    | .invalidBody _ => { digest := none, networkCall := true, errorSurfaced := true }
    | .success content =>
      { digest := some (strTrim content), networkCall := true, errorSurfaced := false }

/-- The digest summarizePage returns, as a function of the settings and the
transport outcome only (the page and present-situation strings shape the
prompt but never the returned value). -/
def digestOf (s : Settings) (o : TransportOutcome) : Option String :=
  if s.apiKey = "" then none
  else
    match o with
    | .success content => some (strTrim content)
    | _ => none

/-- The summarization loop (lines 86-92): one summarizePage call per page in
order, pushing the digest exactly when it is truthy (non-null and
non-empty); `i` is the index of the next page. -/
def collectDigests (env : Nat → TransportOutcome) (s : Settings)
    (presentText : String) : Nat → List String → List String
  | _, [] => []
  | i, page :: rest =>
    match (summarizePage page presentText s (env i)).digest with
    | some d =>
      if d = "" then collectDigests env s presentText (i + 1) rest
      else d :: collectDigests env s presentText (i + 1) rest
    | none => collectDigests env s presentText (i + 1) rest

/-- The pages of the history partition, `paginate(historyToSummarize,
settings.pageSize)` (line 83). -/
def pagesOf (s : Settings) (chat : List Message) : List String :=
  paginate (historyOf s.presentSituationSize chat) s.pageSize

/-- The digest list `summarizedPages` of a run (lines 86-92). -/
def digestsOf (env : Nat → TransportOutcome) (s : Settings)
    (chat : List Message) : List String :=
  collectDigests env s (presentTextOf s.presentSituationSize chat) 0 (pagesOf s chat)

/-- Number of fetch invocations of a run: the loop calls summarizePage once
per page, and each call issues a fetch exactly when the credential is
non-empty. -/
def callsOf (s : Settings) (chat : List Message) : Nat :=
  if s.apiKey = "" then 0 else (pagesOf s chat).length

/-- The synthetic summary message (lines 99-105): system-authored, named
"System", timestamped with the current time, carrying the digests joined by
newlines under the fixed context label. -/
def memoryMessage (now : Nat) (digests : List String) : Message :=
  { is_user := false
  , name := "System"
  , is_system := true
  , send_date := now
  , mes := "[The following is a summarized history of past events, used for context]\n"
      ++ String.intercalate "\n" digests }

/-- Observable outcome of one interceptor run: the final content of the
caller's chat array, the process-wide `dynamicMemory` snapshot (`none` when
the run never reached the assignment at line 94), and the number of network
requests issued. -/
structure RunResult where
  chat : List Message
  snapshot : Option (List String)
  networkCalls : Nat
deriving DecidableEq, Repr

/-- The entry point `dynamicMemoryInterceptor` (lines 34-114): abort when
disabled or the chat is shorter than 3 messages; abort when every message is
preamble; abort when the history partition is empty; otherwise summarize,
overwrite the snapshot with the digest list, and replace the chat in place
with preamble ++ summary message ++ present exactly when the digest list is
non-empty. -/
def dynamicMemoryInterceptor (env : Nat → TransportOutcome) (now : Nat)
    (s : Settings) (chat : List Message) : RunResult :=
  if s.enabled = false ∨ chat.length < 3 then
    { chat := chat, snapshot := none, networkCalls := 0 }
  else if workableOf chat = [] then
    { chat := chat, snapshot := none, networkCalls := 0 }
  else if historyOf s.presentSituationSize chat = [] then
    { chat := chat, snapshot := none, networkCalls := 0 }
  else if digestsOf env s chat = [] then
    { chat := chat, snapshot := some (digestsOf env s chat), networkCalls := callsOf s chat }
  else
    { chat := preambleOf chat ++
        memoryMessage now (digestsOf env s chat) :: presentOf s.presentSituationSize chat
    , snapshot := some (digestsOf env s chat)
    , networkCalls := callsOf s chat }

/-- Concrete user message used by the witnesses; its rendered form
"A: hello\n" is 9 characters long. -/
def demoMsg : Message :=
  { name := "A", mes := "hello", is_user := true, is_system := false, send_date := 0 }

/-- Concrete three-message all-user chat used by the witnesses. -/
def demoChat : List Message := [demoMsg, demoMsg, demoMsg]

/-- Concrete enabled settings with a tiny present-window threshold and a
non-empty credential. -/
def demoSettings : Settings :=
  { enabled := true, pageSize := 2000, presentSituationSize := 1
  , apiUrl := "u", apiKey := "k", summarizeModel := "m" }

/-- Environment in which every remote call succeeds with the digest
"likes tea". -/
def demoEnv : Nat → TransportOutcome := fun _ => .success "likes tea"

/-- Environment in which every remote call throws. -/
def failEnv : Nat → TransportOutcome := fun _ => .exception

/-- Concrete system message forming a pure preamble. -/
def sysMsg : Message :=
  { name := "System", mes := "rules", is_user := false, is_system := true, send_date := 0 }

/-- Concrete chat consisting only of system messages. -/
def sysChat : List Message := [sysMsg, sysMsg, sysMsg]

lemma sumRender_append (a b : List Message) :
    sumRender (a ++ b) = sumRender a + sumRender b := by
  induction a with
  | nil => simp [sumRender]
  | cons m rest ih => simp [sumRender, ih]; omega

lemma sumRender_reverse (l : List Message) : sumRender l.reverse = sumRender l := by
  induction l with
  | nil => rfl
  | cons m rest ih => simp [sumRender, sumRender_append, ih]; omega

lemma presentRev_sum_le (limit : Nat) (l : List Message) :
    ∀ c : Nat, c ≤ limit → c + sumRender (presentRev limit c l) ≤ limit := by
  induction l with
  | nil => intro c hc; simpa [presentRev, sumRender] using hc
  | cons m rest ih =>
    intro c hc
    by_cases h : limit < c + (renderMsg m).length
    · simpa [presentRev, h, sumRender] using hc
    · have h' : c + (renderMsg m).length ≤ limit := by omega
      have := ih (c + (renderMsg m).length) h'
      simp only [presentRev, if_neg h, sumRender] at this ⊢
      omega

lemma presentRev_stop (limit : Nat) (l : List Message) :
    ∀ c : Nat,
      presentRev limit c l = l ∨
      ∃ m t, l = presentRev limit c l ++ m :: t ∧
        limit < c + sumRender (presentRev limit c l) + (renderMsg m).length := by
  induction l with
  | nil => intro c; left; rfl
  | cons m rest ih =>
    intro c
    by_cases h : limit < c + (renderMsg m).length
    · right
      refine ⟨m, rest, by simp [presentRev, h], ?_⟩
      simp only [presentRev, if_pos h, sumRender]
      omega
    · rcases ih (c + (renderMsg m).length) with h1 | ⟨m2, t, ht, hlt⟩
      · left; simp [presentRev, h, h1]
      · right
        refine ⟨m2, t, ?_, ?_⟩
        · simp only [presentRev, if_neg h, List.cons_append]
          exact congrArg (m :: ·) ht
        · simp only [presentRev, if_neg h, sumRender] at hlt ⊢
          omega

/-- Characterization of the backward split: either the whole workable list
fits under the threshold (split index 0, empty history), or the history is
non-empty, its last message is the one whose inclusion would have exceeded
the threshold, and the present partition fits under it. -/
lemma splitIndex_spec (limit : Nat) (ws : List Message) :
    (splitIndex limit ws = 0 ∧ sumRender ws ≤ limit) ∨
    (∃ t m, ws.take (splitIndex limit ws) = t ++ [m] ∧
      sumRender (ws.drop (splitIndex limit ws)) ≤ limit ∧
      limit < (renderMsg m).length + sumRender (ws.drop (splitIndex limit ws))) := by
  rcases presentRev_stop limit ws.reverse 0 with hA | ⟨m, t, ht, hlt⟩
  · left
    constructor
    · have hl : (presentRev limit 0 ws.reverse).length = ws.length := by
        rw [hA]; simp
      simp [splitIndex, hl]
    · have h1 := presentRev_sum_le limit ws.reverse 0 (Nat.zero_le _)
      rw [hA] at h1
      simpa [sumRender_reverse] using h1
  · right
    obtain ⟨p, hp⟩ : ∃ p, presentRev limit 0 ws.reverse = p := ⟨_, rfl⟩
    rw [hp] at ht hlt
    have hws : ws = (t.reverse ++ [m]) ++ p.reverse := by
      have h2 : ws = (p ++ m :: t).reverse := by
        rw [← ht, List.reverse_reverse]
      rw [h2, List.reverse_append, List.reverse_cons]
    have hlenws : ws.length = p.length + (t.length + 1) := by
      simpa using congrArg List.length ht
    have hsi : splitIndex limit ws = t.length + 1 := by
      unfold splitIndex
      rw [hp]
      omega
    have hlen1 : (t.reverse ++ [m]).length = t.length + 1 := by simp
    have htake : ws.take (splitIndex limit ws) = t.reverse ++ [m] := by
      conv_lhs => rw [hsi, hws]
      exact List.take_left' hlen1
    have hdrop : ws.drop (splitIndex limit ws) = p.reverse := by
      conv_lhs => rw [hsi, hws]
      exact List.drop_left' hlen1
    have h1 := presentRev_sum_le limit ws.reverse 0 (Nat.zero_le _)
    rw [hp] at h1
    have hsum : sumRender (ws.drop (splitIndex limit ws)) ≤ limit := by
      rw [hdrop, sumRender_reverse]
      omega
    refine ⟨t.reverse, m, htake, hsum, ?_⟩
    rw [hdrop, sumRender_reverse]
    omega

/-- C2: over the workable messages the backward scan makes the present
partition the maximal trailing run of whole messages whose cumulative
rendered character count does not exceed the threshold; the first message
whose inclusion would exceed it, and everything before it, become history;
messages are never split between the two partitions (history and present
are whole-message partitions that concatenate back to the input). -/
theorem presentWindowSplit_correct (limit : Nat) (ws : List Message) :
    ws.take (splitIndex limit ws) ++ ws.drop (splitIndex limit ws) = ws ∧
    sumRender (ws.drop (splitIndex limit ws)) ≤ limit ∧
    (∀ p m, ws.take (splitIndex limit ws) = p ++ [m] →
      limit < (renderMsg m).length + sumRender (ws.drop (splitIndex limit ws))) ∧
    (∀ suf, suf <:+ ws → sumRender suf ≤ limit →
      suf.length ≤ (ws.drop (splitIndex limit ws)).length) := by
  rcases splitIndex_spec limit ws with ⟨hz, hsum⟩ | ⟨t, m, htake, hsum, hlt⟩
  · refine ⟨List.take_append_drop _ _, ?_, ?_, ?_⟩
    · rw [hz]
      simpa using hsum
    · intro p m h
      rw [hz] at h
      simp at h
    · intro suf hsuf hle
      rw [hz]
      simpa using hsuf.length_le
  · refine ⟨List.take_append_drop _ _, hsum, ?_, ?_⟩
    · intro p m0 h
      have hlast := congrArg List.getLast? (htake.symm.trans h)
      simp [List.getLast?_concat] at hlast
      rw [← hlast]
      exact hlt
    · intro suf hsuf hle
      by_contra hcon
      push_neg at hcon
      have hmem : (m :: ws.drop (splitIndex limit ws)) <:+ ws := by
        refine ⟨t, ?_⟩
        have h2 := List.take_append_drop (splitIndex limit ws) ws
        rw [htake] at h2
        simpa using h2
      have hsub : (m :: ws.drop (splitIndex limit ws)) <:+ suf :=
        List.suffix_of_suffix_length_le hmem hsuf (by simpa using hcon)
      obtain ⟨u, hu⟩ := hsub
      have hs : sumRender suf =
          sumRender u + ((renderMsg m).length + sumRender (ws.drop (splitIndex limit ws))) := by
        rw [← hu, sumRender_append, sumRender]
      omega

/-- Witness for C2: on the concrete three-message chat with threshold 12 the
history is non-empty and its last message would overflow the window. -/
theorem presentWindowSplit_correct_witness :
    12 < (renderMsg demoMsg).length + sumRender (demoChat.drop (splitIndex 12 demoChat)) :=
  (presentWindowSplit_correct 12 demoChat).2.2.1 [demoMsg] demoMsg (by decide)

/-- C1 (counterexample): on a chat whose single most recent workable message
already exceeds the threshold, the history partition is the whole workable
chat (not empty) and the entry point does mutate the sequence. -/
theorem oversizedLast_historyNonempty_counterexample :
    demoSettings.presentSituationSize < (renderMsg demoMsg).length ∧
    (workableOf demoChat).getLast? = some demoMsg ∧
    historyOf demoSettings.presentSituationSize demoChat = demoChat ∧
    presentOf demoSettings.presentSituationSize demoChat = [] ∧
    (dynamicMemoryInterceptor demoEnv 0 demoSettings demoChat).chat ≠ demoChat := by
  decide

/-- C1 (amended): when the rendered form of the single most recent workable
message already exceeds the threshold, the splitter produces an empty
present window and the entire workable sequence becomes history. -/
theorem oversizedLastMessage_split (limit : Nat) (ws : List Message) (m : Message)
    (hlast : ws.getLast? = some m)
    (hbig : limit < (renderMsg m).length) :
    ws.drop (splitIndex limit ws) = [] ∧ ws.take (splitIndex limit ws) = ws := by
  obtain ⟨t, hrev⟩ : ∃ t, ws.reverse = m :: t := by
    rw [List.getLast?_eq_head?_reverse] at hlast
    cases hr : ws.reverse with
    | nil => rw [hr] at hlast; simp at hlast
    | cons a u =>
      rw [hr] at hlast
      simp at hlast
      exact ⟨u, by rw [hlast]⟩
  have hzero : presentRev limit 0 ws.reverse = [] := by
    rw [hrev]
    simp [presentRev]
    omega
  have hsi : splitIndex limit ws = ws.length := by
    simp [splitIndex, hzero]
  rw [hsi]
  exact ⟨List.drop_length ws, List.take_length ws⟩

/-- Witness for the amended C1 at a concrete oversized-last-message chat. -/
theorem oversizedLastMessage_split_witness :
    demoChat.drop (splitIndex 1 demoChat) = [] ∧
    demoChat.take (splitIndex 1 demoChat) = demoChat :=
  oversizedLastMessage_split 1 demoChat demoMsg (by decide) (by decide)

lemma foldl_append_mk (ls : List (List Char)) :
    ∀ s : String,
      List.foldl (fun a b => a ++ b) s (ls.map fun l => String.mk l) =
        String.mk (s.data ++ ls.flatten) := by
  induction ls with
  | nil => intro s; simp
  | cons a tl ih =>
    intro s
    simp only [List.map_cons, List.foldl_cons, List.flatten_cons, ih]
    simp

lemma string_join_mk (ls : List (List Char)) :
    String.join (ls.map fun l => String.mk l) = String.mk ls.flatten := by
  have h := foldl_append_mk ls ""
  simpa [String.join] using h

lemma join_range_chunks (ps : Nat) (l : List Char) :
    ∀ n : Nat,
      ((List.range n).map fun i => (l.drop (i * ps)).take ps).flatten = l.take (n * ps) := by
  intro n
  induction n with
  | zero => simp
  | succ k ih =>
    rw [List.range_succ, List.map_append, List.flatten_append, ih]
    simp only [List.map_cons, List.map_nil, List.flatten_cons, List.flatten_nil, List.append_nil]
    rw [Nat.succ_mul, List.take_add]

lemma pageCount_covers (ps len : Nat) (hps : 0 < ps) : len ≤ pageCount ps len * ps := by
  unfold pageCount
  have hdm := Nat.div_add_mod (len + ps - 1) ps
  have hmod := Nat.mod_lt (len + ps - 1) hps
  rw [Nat.mul_comm]
  omega

/-- C3: for every message list and positive page size, pagination is total,
every produced page has at most pageSize characters, the pages concatenate
back to exactly the rendered blob, and an empty blob yields zero pages. -/
theorem paginate_correct (chat : List Message) (pageSize : Nat) (hps : 0 < pageSize) :
    (∀ p ∈ paginate chat pageSize, p.length ≤ pageSize) ∧
    String.join (paginate chat pageSize) = renderChat chat ∧
    (renderChat chat = "" → paginate chat pageSize = []) := by
  by_cases hempty : (renderChat chat).length = 0
  · rw [paginate, if_pos hempty]
    refine ⟨by simp, ?_, fun _ => rfl⟩
    have hnil : (renderChat chat).data = [] := List.length_eq_zero.mp hempty
    have : renderChat chat = "" := String.ext hnil
    rw [this]
    rfl
  · rw [paginate, if_neg hempty]
    refine ⟨?_, ?_, ?_⟩
    · intro p hp
      simp only [List.mem_map, List.mem_range] at hp
      obtain ⟨i, _, rfl⟩ := hp
      exact List.length_take_le pageSize ((renderChat chat).data.drop (i * pageSize))
    · have h1 : ((List.range (pageCount pageSize (renderChat chat).length)).map
          fun i => String.mk (((renderChat chat).data.drop (i * pageSize)).take pageSize)) =
          (((List.range (pageCount pageSize (renderChat chat).length)).map
            fun i => ((renderChat chat).data.drop (i * pageSize)).take pageSize).map
              fun l => String.mk l) := by
        rw [List.map_map]
        rfl
      rw [h1, string_join_mk, join_range_chunks]
      have hcov : (renderChat chat).length ≤
          pageCount pageSize (renderChat chat).length * pageSize :=
        pageCount_covers pageSize (renderChat chat).length hps
      have htake : (renderChat chat).data.take
          (pageCount pageSize (renderChat chat).length * pageSize) = (renderChat chat).data :=
        List.take_of_length_le hcov
      rw [htake]
    · intro h
      rw [h] at hempty
      simp at hempty

/-- Witness for C3 at a concrete chat and page size. -/
theorem paginate_correct_witness :
    String.join (paginate demoChat 5) = renderChat demoChat :=
  (paginate_correct demoChat 5 (by decide)).2.1

lemma summarizePage_digest (page ps : String) (s : Settings) (o : TransportOutcome) :
    (summarizePage page ps s o).digest = digestOf s o := by
  by_cases h : s.apiKey = "" <;> cases o <;> simp [summarizePage, digestOf, h]

/-- C7: summarizePage is a total function of its inputs and the transport
outcome (no exception reaches the caller); a missing credential yields null
with no network request and a surfaced error, and every transport failure,
non-success status or structurally invalid body yields null with a surfaced
error. -/
theorem summarizePage_failure_handling (page ps : String) (s : Settings)
    (o : TransportOutcome) :
    (s.apiKey = "" →
      summarizePage page ps s o =
        { digest := none, networkCall := false, errorSurfaced := true }) ∧
    ((o = .exception ∨ (∃ st b, o = .httpError st b) ∨ (∃ r, o = .invalidBody r)) →
      (summarizePage page ps s o).digest = none ∧
      (summarizePage page ps s o).errorSurfaced = true) := by
  constructor
  · intro h
    simp [summarizePage, h]
  · intro h
    by_cases hk : s.apiKey = ""
    · simp [summarizePage, hk]
    · rcases h with rfl | ⟨st, b, rfl⟩ | ⟨r, rfl⟩ <;> simp [summarizePage, hk]

/-- Witness for C7: with an empty credential the call returns null, issues
no request and surfaces an error. -/
theorem summarizePage_failure_handling_witness :
    summarizePage "p" "q" { demoSettings with apiKey := "" } .exception =
      { digest := none, networkCall := false, errorSurfaced := true } :=
  (summarizePage_failure_handling "p" "q" { demoSettings with apiKey := "" } .exception).1 rfl

lemma collectDigests_cons (env : Nat → TransportOutcome) (s : Settings) (pt : String)
    (i : Nat) (pg : String) (rest : List String) :
    collectDigests env s pt i (pg :: rest) =
      match (summarizePage pg pt s (env i)).digest with
      | some d =>
        if d = "" then collectDigests env s pt (i + 1) rest
        else d :: collectDigests env s pt (i + 1) rest
      | none => collectDigests env s pt (i + 1) rest := rfl

lemma collectDigests_mem_ne (env : Nat → TransportOutcome) (s : Settings) (pt : String) :
    ∀ (pages : List String) (i : Nat) (d : String),
      d ∈ collectDigests env s pt i pages → d ≠ "" := by
  intro pages
  induction pages with
  | nil =>
    intro i d h
    simp [collectDigests] at h
  | cons pg rest ih =>
    intro i d h
    rw [collectDigests_cons] at h
    split at h
    · split at h
      · exact ih (i + 1) d h
      · rename_i h0
        rcases List.mem_cons.mp h with rfl | hmem
        · exact h0
        · exact ih (i + 1) d hmem
    · exact ih (i + 1) d h

lemma collectDigests_blank (env : Nat → TransportOutcome) (s : Settings) (pt : String)
    (hblank : ∀ i d, digestOf s (env i) = some d → d = "") :
    ∀ (pages : List String) (i : Nat), collectDigests env s pt i pages = [] := by
  intro pages
  induction pages with
  | nil => intro i; rfl
  | cons pg rest ih =>
    intro i
    rw [collectDigests_cons, summarizePage_digest]
    cases hd : digestOf s (env i) with
    | none => exact ih (i + 1)
    | some d0 =>
      have h0 : d0 = "" := hblank i d0 hd
      simp [h0, ih (i + 1)]

/-- Case analysis of one interceptor run: either an early abort leaves the
chat, the snapshot and the network untouched, or the run reaches the
summarization stage, always overwrites the snapshot, and replaces the chat
exactly when the digest list is non-empty. -/
lemma interceptor_cases (env : Nat → TransportOutcome) (now : Nat) (s : Settings)
    (chat : List Message) :
    dynamicMemoryInterceptor env now s chat =
        { chat := chat, snapshot := none, networkCalls := 0 } ∨
    (¬(s.enabled = false ∨ chat.length < 3) ∧ workableOf chat ≠ [] ∧
      historyOf s.presentSituationSize chat ≠ [] ∧
      dynamicMemoryInterceptor env now s chat =
        { chat :=
            if digestsOf env s chat = [] then chat
            else preambleOf chat ++ memoryMessage now (digestsOf env s chat) ::
              presentOf s.presentSituationSize chat
        , snapshot := some (digestsOf env s chat)
        , networkCalls := callsOf s chat }) := by
  unfold dynamicMemoryInterceptor
  by_cases h1 : s.enabled = false ∨ chat.length < 3
  · left
    rw [if_pos h1]
  · rw [if_neg h1]
    by_cases h2 : workableOf chat = []
    · left
      rw [if_pos h2]
    · rw [if_neg h2]
      by_cases h3 : historyOf s.presentSituationSize chat = []
      · left
        rw [if_pos h3]
      · rw [if_neg h3]
        right
        refine ⟨h1, h2, h3, ?_⟩
        by_cases h4 : digestsOf env s chat = []
        · rw [if_pos h4, if_pos h4]
        · rw [if_neg h4, if_neg h4]

/-- C10: a chat with fewer than 3 messages is returned immediately: no
mutation, no snapshot update, no network call, whatever the settings and the
environment. -/
theorem shortChat_noop (env : Nat → TransportOutcome) (now : Nat) (s : Settings)
    (chat : List Message) (hshort : chat.length < 3) :
    dynamicMemoryInterceptor env now s chat =
      { chat := chat, snapshot := none, networkCalls := 0 } := by
  unfold dynamicMemoryInterceptor
  rw [if_pos (Or.inr hshort)]

/-- Witness for C10 on a concrete two-message chat. -/
theorem shortChat_noop_witness :
    dynamicMemoryInterceptor demoEnv 0 demoSettings [demoMsg, demoMsg] =
      { chat := [demoMsg, demoMsg], snapshot := none, networkCalls := 0 } :=
  shortChat_noop demoEnv 0 demoSettings [demoMsg, demoMsg] (by decide)

/-- C8: a sequence consisting entirely of system/preamble messages is left
unmodified with no network call (and no snapshot update). -/
theorem allPreamble_noop (env : Nat → TransportOutcome) (now : Nat) (s : Settings)
    (chat : List Message) (hp : ∀ m ∈ chat, isPreambleMsg m = true) :
    dynamicMemoryInterceptor env now s chat =
      { chat := chat, snapshot := none, networkCalls := 0 } := by
  unfold dynamicMemoryInterceptor
  by_cases h1 : s.enabled = false ∨ chat.length < 3
  · rw [if_pos h1]
  · rw [if_neg h1]
    have h2 : workableOf chat = [] := by
      unfold workableOf
      exact List.dropWhile_eq_nil_iff.mpr hp
    rw [if_pos h2]

/-- Witness for C8 on a concrete all-system chat. -/
theorem allPreamble_noop_witness :
    dynamicMemoryInterceptor demoEnv 0 demoSettings sysChat =
      { chat := sysChat, snapshot := none, networkCalls := 0 } :=
  allPreamble_noop demoEnv 0 demoSettings sysChat (by decide)

/-- C9: every run that reaches the summarization stage overwrites the
process-wide snapshot with the ordered digest list of that run (possibly
empty), and every collected digest is non-empty. -/
theorem snapshot_overwritten (env : Nat → TransportOutcome) (now : Nat) (s : Settings)
    (chat : List Message) (hen : s.enabled = true) (hlen : 3 ≤ chat.length)
    (hw : workableOf chat ≠ []) (hh : historyOf s.presentSituationSize chat ≠ []) :
    (dynamicMemoryInterceptor env now s chat).snapshot = some (digestsOf env s chat) ∧
    ∀ d ∈ digestsOf env s chat, d ≠ "" := by
  have h1 : ¬(s.enabled = false ∨ chat.length < 3) := by
    push_neg
    exact ⟨by simp [hen], by omega⟩
  constructor
  · unfold dynamicMemoryInterceptor
    rw [if_neg h1, if_neg hw, if_neg hh]
    by_cases h4 : digestsOf env s chat = []
    · rw [if_pos h4]
    · rw [if_neg h4]
  · intro d hd
    exact collectDigests_mem_ne env s (presentTextOf s.presentSituationSize chat)
      (pagesOf s chat) 0 d hd

/-- Witness for C9 on the concrete mutating run. -/
theorem snapshot_overwritten_witness :
    (dynamicMemoryInterceptor demoEnv 0 demoSettings demoChat).snapshot =
      some (digestsOf demoEnv demoSettings demoChat) :=
  (snapshot_overwritten demoEnv 0 demoSettings demoChat rfl (by decide)
    (by decide) (by decide)).1

/-- C4: every mutating run produces a chat of length preamble + 1 + present
with a non-empty digest list, the preamble byte-identical and in order at
the front, and the present messages byte-identical and in order at the
back. -/
theorem reconstruction_preserves (env : Nat → TransportOutcome) (now : Nat)
    (s : Settings) (chat : List Message)
    (hmut : (dynamicMemoryInterceptor env now s chat).chat ≠ chat) :
    (dynamicMemoryInterceptor env now s chat).chat.length =
      (preambleOf chat).length + 1 + (presentOf s.presentSituationSize chat).length ∧
    digestsOf env s chat ≠ [] ∧
    (dynamicMemoryInterceptor env now s chat).chat.take (preambleOf chat).length =
      preambleOf chat ∧
    (dynamicMemoryInterceptor env now s chat).chat.drop ((preambleOf chat).length + 1) =
      presentOf s.presentSituationSize chat := by
  rcases interceptor_cases env now s chat with hc | ⟨h1, h2, h3, hc⟩
  · rw [hc] at hmut
    simp at hmut
  · by_cases h4 : digestsOf env s chat = []
    · rw [hc] at hmut
      simp [h4] at hmut
    · rw [hc]
      simp only [if_neg h4]
      refine ⟨?_, h4, ?_, ?_⟩
      · simp [List.length_append]
        omega
      · exact List.take_left _ _
      · have he : preambleOf chat ++ memoryMessage now (digestsOf env s chat) ::
            presentOf s.presentSituationSize chat =
            (preambleOf chat ++ [memoryMessage now (digestsOf env s chat)]) ++
              presentOf s.presentSituationSize chat := by
          simp
        have hl : (preambleOf chat).length + 1 =
            (preambleOf chat ++ [memoryMessage now (digestsOf env s chat)]).length := by
          simp
        rw [he, hl]
        exact List.drop_left _ _

/-- Witness for C4 on the concrete mutating run. -/
theorem reconstruction_preserves_witness :
    (dynamicMemoryInterceptor demoEnv 0 demoSettings demoChat).chat.length =
      (preambleOf demoChat).length + 1 +
        (presentOf demoSettings.presentSituationSize demoChat).length :=
  (reconstruction_preserves demoEnv 0 demoSettings demoChat (by decide)).1

/-- C5: whenever the digest list is non-empty, the reconstructed sequence is
the preamble, then exactly one synthetic system-authored message whose body
is the digests joined with newlines under the fixed summarized-history
label and whose timestamp is the current time, then the present messages. -/
theorem summary_message_shape (env : Nat → TransportOutcome) (now : Nat) (s : Settings)
    (chat : List Message) (hen : s.enabled = true) (hlen : 3 ≤ chat.length)
    (hw : workableOf chat ≠ [])
    (hh : historyOf s.presentSituationSize chat ≠ [])
    (hd : digestsOf env s chat ≠ []) :
    (dynamicMemoryInterceptor env now s chat).chat =
      preambleOf chat ++
        { name := "System"
        , mes := "[The following is a summarized history of past events, used for context]\n"
            ++ String.intercalate "\n" (digestsOf env s chat)
        , is_user := false
        , is_system := true
        , send_date := now } ::
        presentOf s.presentSituationSize chat := by
  have h1 : ¬(s.enabled = false ∨ chat.length < 3) := by
    push_neg
    exact ⟨by simp [hen], by omega⟩
  unfold dynamicMemoryInterceptor
  rw [if_neg h1, if_neg hw, if_neg hh, if_neg hd]
  rfl

/-- Witness for C5 on the concrete mutating run. -/
theorem summary_message_shape_witness :
    (dynamicMemoryInterceptor demoEnv 0 demoSettings demoChat).chat =
      preambleOf demoChat ++
        { name := "System"
        , mes := "[The following is a summarized history of past events, used for context]\n"
            ++ String.intercalate "\n" (digestsOf demoEnv demoSettings demoChat)
        , is_user := false
        , is_system := true
        , send_date := 0 } ::
        presentOf demoSettings.presentSituationSize demoChat :=
  summary_message_shape demoEnv 0 demoSettings demoChat rfl (by decide) (by decide)
    (by decide) (by decide)

/-- C6: when every page's call fails or returns an empty or whitespace-only
digest, the digest list is empty and the chat is left unmodified. -/
theorem allFailedOrBlank_noop (env : Nat → TransportOutcome) (now : Nat) (s : Settings)
    (chat : List Message)
    (hblank : ∀ i d, digestOf s (env i) = some d → d = "") :
    digestsOf env s chat = [] ∧
    (dynamicMemoryInterceptor env now s chat).chat = chat := by
  have hz : digestsOf env s chat = [] :=
    collectDigests_blank env s (presentTextOf s.presentSituationSize chat) hblank
      (pagesOf s chat) 0
  refine ⟨hz, ?_⟩
  rcases interceptor_cases env now s chat with hc | ⟨_, _, _, hc⟩
  · rw [hc]
  · rw [hc]
    simp [hz]

/-- Witness for C6 in the all-exceptions environment. -/
theorem allFailedOrBlank_noop_witness :
    digestsOf failEnv demoSettings demoChat = [] ∧
    (dynamicMemoryInterceptor failEnv 0 demoSettings demoChat).chat = demoChat :=
  allFailedOrBlank_noop failEnv 0 demoSettings demoChat
    (fun i d h => by simp [digestOf, failEnv, demoSettings] at h)
